import Mathlib

/-!
Verification development for the KMZ Generator (src/app.py).

Shallow embedding conventions:
* Python strings are modelled as lists of characters (PyStr), so that the
  character-level operations of the source (strip, lower, zfill, regex
  matching) are simple executable functions.
* Spreadsheet cells that can be NaN are modelled as Option values; numeric
  cells that may fail float() conversion get a three-state Cell type.
* Coordinates are rationals (an idealisation of Python floats); the
  haversine distance is defined over the reals exactly as in the source,
  so the geometry builder is noncomputable but every branch decision it
  makes is proved from real-analytic bounds.
* The XML document handed to the style post-processor is modelled as a
  tree of folders, placemarks and document-level styles, keeping exactly
  the fields the source reads or writes (name text, inline Icon hrefs,
  styleUrl children, document style ids).
-/

abbrev PyStr := List Char

def pys (s : String) : PyStr := s.data

/-- Python str.strip() whitespace set (ASCII part; inputs here are ASCII). -/
def isPySpace (c : Char) : Bool :=
  c ∈ [' ', '\t', '\n', '\r', '\x0b', '\x0c']

/-- Python str.strip(): drop leading and trailing whitespace. -/
def pyStrip (s : PyStr) : PyStr :=
  ((s.dropWhile isPySpace).reverse.dropWhile isPySpace).reverse

/-- Python str.lower() (ASCII case folding; all inputs compared here are ASCII). -/
def pyLower (s : PyStr) : PyStr := s.map Char.toLower

def digitChar (n : Nat) : Char := Char.ofNat (48 + n)

def natToStrAux : Nat → Nat → PyStr
  | 0, _ => []
  | fuel + 1, n => if n < 10 then [digitChar n] else natToStrAux fuel (n / 10) ++ [digitChar (n % 10)]

/-- Decimal representation of a natural number (str(n) in Python). -/
def natToStr (n : Nat) : PyStr := natToStrAux (n + 1) n

/-- Decimal representation of an integer (str(i) in Python). -/
def intToStr (i : Int) : PyStr :=
  if i < 0 then '-' :: natToStr i.natAbs else natToStr i.toNat

def padZeros (w : Nat) (s : PyStr) : PyStr :=
  List.replicate (w - s.length) '0' ++ s

/-- Python str.zfill(w): zero-pad to width w, keeping a leading sign in front. -/
def zfill (w : Nat) (s : PyStr) : PyStr :=
  match s with
  | [] => padZeros w []
  | c :: t => if c = '-' ∨ c = '+' then c :: padZeros (w - 1) t else padZeros w (c :: t)

/-- safe_str: None for NaN cells and for values that strip to the empty
string, otherwise the stripped string (app.py lines 44-48). -/
def safe_str (val : Option PyStr) : Option PyStr :=
  match val with
  | none => none
  | some s =>
    let t := pyStrip s
    if t = [] then none else some t

def digitsVal (l : PyStr) : Nat :=
  l.foldl (fun a c => a * 10 + (c.toNat - 48)) 0

/-- Model of Python float(s) restricted to the plain decimal forms
(optional sign, digits, optional fractional part).  Exponent, inf, nan and
underscore forms of the float grammar are not modelled; no claim in this
development reaches them (all-digit strings are caught by the regex
branches of normalize_agm_name before float() is ever called). -/
def pyFloatOfStr (s : PyStr) : Option ℚ :=
  let sgnBody : ℚ × PyStr :=
    match s with
    | '-' :: t => (-1, t)
    | '+' :: t => (1, t)
    | t => (1, t)
  let intPart := sgnBody.2.takeWhile Char.isDigit
  let rest := sgnBody.2.dropWhile Char.isDigit
  match rest with
  | [] => if intPart = [] then none else some (sgnBody.1 * digitsVal intPart)
  | '.' :: frac =>
    if frac.all Char.isDigit ∧ (intPart ≠ [] ∨ frac ≠ []) then
      some (sgnBody.1 * ((digitsVal intPart : ℚ) + (digitsVal frac : ℚ) / (10 ^ frac.length)))
    else none
  | _ => none

/-- re.fullmatch("0+\\d+", s): one or more zeros followed by one or more
digits, i.e. an all-digit string of length at least 2 starting with 0. -/
def matchesLeadingZeroDigits (s : PyStr) : Bool :=
  match s with
  | c :: c2 :: rest => c = '0' && (c2 :: rest).all Char.isDigit
  | _ => false

/-- re.fullmatch("\\d+", s). -/
def matchesDigits (s : PyStr) : Bool :=
  !s.isEmpty && s.all Char.isDigit

/-- normalize_agm_name (app.py lines 50-72). -/
def normalize_agm_name (raw : Option PyStr) : PyStr :=
  match safe_str raw with
  | none => []
  | some s =>
    if matchesLeadingZeroDigits s then s
    else if matchesDigits s then
      if 4 ≤ s.length then s
      else if s.length < 3 then zfill 3 s
      else s
    else
      match pyFloatOfStr s with
      | some q =>
        if q.den = 1 then
          let sd := intToStr q.num
          if sd.length < 3 then zfill 3 sd else sd
        else s
      | none => s

/-- KML_COLOR_MAP (app.py lines 26-35). -/
def KML_COLOR_MAP : List (PyStr × PyStr) :=
  [ (pys "red", pys "ff0000ff"),
    (pys "blue", pys "ffff0000"),
    (pys "yellow", pys "ff00ffff"),
    (pys "purple", pys "ff800080"),
    (pys "green", pys "ff00ff00"),
    (pys "orange", pys "ff008cff"),
    (pys "white", pys "ffffffff"),
    (pys "black", pys "ff000000") ]

def isHexDigitPy (c : Char) : Bool :=
  c ∈ (pys "0123456789abcdefABCDEF")

/-- The branch of normalize_color_value on a truthy stripped value c:
palette lookup on the lowercased value first, else the 8-hex test. -/
def normColorBody (c : PyStr) : Option PyStr :=
  let cl := pyLower c
  match KML_COLOR_MAP.find? (fun kv => kv.1 = cl) with
  | some kv => some kv.2
  | none =>
    if c.length = 8 ∧ c.all isHexDigitPy then some (pyLower c) else none

/-- normalize_color_value (app.py lines 74-89). -/
def normalize_color_value (val : Option PyStr) : Option PyStr :=
  match safe_str val with
  | none => none
  | some c => normColorBody c

/-! ## Great-circle distance (app.py lines 131-139) -/

/-- math.radians(x) = x * pi / 180. -/
noncomputable def radians (x : ℝ) : ℝ := x * Real.pi / 180

/-- haversine_m (app.py lines 131-139): haversine distance in meters with
Earth radius 6371000. -/
noncomputable def haversine_m (lat1 lon1 lat2 lon2 : ℝ) : ℝ :=
  let R : ℝ := 6371000
  let phi1 := radians lat1
  let phi2 := radians lat2
  let dphi := radians (lat2 - lat1)
  let dl := radians (lon2 - lon1)
  let a := Real.sin (dphi / 2) ^ 2 + Real.cos phi1 * Real.cos phi2 * Real.sin (dl / 2) ^ 2
  2 * R * Real.arcsin (Real.sqrt a)

lemma arcsin_abs_sin (y : ℝ) (hy : |y| ≤ Real.pi / 2) :
    Real.arcsin |Real.sin y| = |y| := by
  have hpi : 0 < Real.pi := Real.pi_pos
  rcases le_or_lt 0 y with h0 | h0
  · have hy2 : y ≤ Real.pi / 2 := by
      have := abs_of_nonneg h0
      linarith [this ▸ hy]
    have hsin : 0 ≤ Real.sin y :=
      Real.sin_nonneg_of_nonneg_of_le_pi h0 (by linarith)
    rw [abs_of_nonneg hsin, abs_of_nonneg h0]
    exact Real.arcsin_sin (by linarith) hy2
  · have habs : |y| = -y := abs_of_neg h0
    have hy2 : -y ≤ Real.pi / 2 := by linarith [habs ▸ hy]
    have hsin : 0 ≤ Real.sin (-y) :=
      Real.sin_nonneg_of_nonneg_of_le_pi (by linarith) (by linarith)
    have : |Real.sin y| = Real.sin (-y) := by
      rw [Real.sin_neg] at hsin ⊢
      rw [abs_of_nonpos (by linarith)]
    rw [this, habs]
    exact Real.arcsin_sin (by linarith) hy2

/-- On the equator the haversine distance reduces to R times the absolute
longitude difference in radians. -/
lemma hav_equator (l1 l2 : ℝ) (h : |l2 - l1| ≤ 180) :
    haversine_m 0 l1 0 l2 = 6371000 * (|l2 - l1| * Real.pi / 180) := by
  have hpi : 0 < Real.pi := Real.pi_pos
  unfold haversine_m radians
  simp only [sub_zero, zero_mul, zero_div, Real.sin_zero, Real.cos_zero]
  have ha : (0:ℝ) ^ 2 + 1 * 1 * Real.sin ((l2 - l1) * Real.pi / 180 / 2) ^ 2
      = Real.sin ((l2 - l1) * Real.pi / 180 / 2) ^ 2 := by ring
  rw [ha, Real.sqrt_sq_eq_abs]
  set y : ℝ := (l2 - l1) * Real.pi / 180 / 2 with hy
  have habs : |y| = |l2 - l1| * Real.pi / 360 := by
    rw [hy]
    rw [abs_div, abs_div, abs_mul, abs_of_pos hpi]
    norm_num
    ring
  have hyle : |y| ≤ Real.pi / 2 := by
    rw [habs]
    have : |l2 - l1| * Real.pi ≤ 180 * Real.pi := by
      exact mul_le_mul_of_nonneg_right h (le_of_lt hpi)
    linarith
  rw [arcsin_abs_sin y hyle, habs]
  ring

lemma abs_small_sub_zero : |(1:ℝ) / 1000 - 0| = 1 / 1000 := by
  rw [sub_zero, abs_of_nonneg (by norm_num : (0:ℝ) ≤ 1 / 1000)]

lemma abs_zero_sub_small : |(0:ℝ) - 1 / 1000| = 1 / 1000 := by
  rw [zero_sub, abs_neg, abs_of_nonneg (by norm_num : (0:ℝ) ≤ 1 / 1000)]

lemma hav_le_001a : haversine_m 0 0 0 (1 / 1000) ≤ 5000 := by
  rw [hav_equator 0 (1 / 1000) (by rw [abs_small_sub_zero]; norm_num)]
  have hpi := Real.pi_lt_d2
  have hpos := Real.pi_pos
  rw [abs_small_sub_zero]
  nlinarith

lemma hav_le_001b : haversine_m 0 (1 / 1000) 0 0 ≤ 5000 := by
  rw [hav_equator (1 / 1000) 0 (by rw [abs_zero_sub_small]; norm_num)]
  have hpi := Real.pi_lt_d2
  have hpos := Real.pi_pos
  rw [abs_zero_sub_small]
  nlinarith

/-- The rational 1/1000, given in lowest terms as an explicit structure
literal so that coordinate equality tests reduce without normalization. -/
def q1000 : ℚ := ⟨1, 1000, by norm_num, Nat.coprime_one_left 1000⟩

lemma q1000_cast : ((q1000 : ℚ) : ℝ) = 1 / 1000 := by
  rw [Rat.cast_def]
  norm_num [q1000]

lemma hav_gt_1deg : 5000 < haversine_m 0 0 0 1 := by
  rw [hav_equator 0 1 (by rw [sub_zero, abs_of_nonneg (by norm_num : (0:ℝ) ≤ 1)]; norm_num)]
  have hpi := Real.pi_gt_d2
  rw [show |(1:ℝ) - 0| = 1 by rw [sub_zero, abs_of_nonneg (by norm_num : (0:ℝ) ≤ 1)]]
  nlinarith

/-! ## Geometry builder (app.py lines 144-205) -/

/-- A spreadsheet numeric cell: NaN, a parseable number, or a value whose
float() conversion raises. -/
inductive Cell where
  | na : Cell
  | num : ℚ → Cell
  | bad : Cell
deriving DecidableEq

/-- A KML coordinate pair in (lon, lat) order, as built by the source. -/
abbrev Point := ℚ × ℚ

/-- One row of an Access or Centerline sheet, restricted to the columns the
source reads (Name, Latitude, Longitude, LineStringColor, icon, Icon).
Option PyStr cells use none for NaN. -/
structure SheetRow where
  name : Option PyStr
  lat : Cell
  lon : Cell
  lineStringColor : Option PyStr
  iconL : Option PyStr
  iconU : Option PyStr
deriving DecidableEq

/-- An Access/Centerline sheet: which optional columns exist, plus the rows. -/
structure Sheet where
  hasColorCol : Bool
  hasIconL : Bool
  hasIconU : Bool
  rows : List SheetRow
deriving DecidableEq

/-- chosen_color (app.py lines 155-159): first non-NaN value of the color
column, stripped; none when the column is absent or all-NaN. -/
def chosen_color (sh : Sheet) : Option PyStr :=
  if sh.hasColorCol then
    match sh.rows.filterMap (fun r => r.lineStringColor) with
    | [] => none
    | c :: _ => some (pyStrip c)
  else none

/-- A LineString feature as the source emits it: coordinates plus the line
style fields set by set_linestring_style (color and width 3) when a color
was chosen and recognized. -/
structure PathFeature where
  coords : List Point
  color : Option PyStr
  width : Option Nat
deriving DecidableEq

/-- The line style resulting from the chosen color: set_linestring_style is
called only when chosen_color is truthy (app.py lines 171-172), and it sets
color and width only when normalize_color_value succeeds (lines 110-118). -/
def lineStyleOf (chosen : Option PyStr) : Option PyStr × Option Nat :=
  match chosen with
  | none => (none, none)
  | some c =>
    if c = [] then (none, none)
    else
      match normalize_color_value (some c) with
      | some col => (some col, some 3)
      | none => (none, none)

/-- flush (app.py lines 165-173): emit the buffer as a LineString only when
it has at least 2 points. -/
def flushInto (chosen : Option PyStr) (emitted : List PathFeature) (seg : List Point) :
    List PathFeature :=
  if seg.length < 2 then emitted
  else emitted ++ [{ coords := seg, color := (lineStyleOf chosen).1, width := (lineStyleOf chosen).2 }]

/-- Loop state of add_lines_with_autosplit: features created so far, the
current coordinate buffer, and the previously appended point. -/
structure LineState where
  emitted : List PathFeature
  seg : List Point
  prev : Option Point
deriving DecidableEq

/-- One iteration of the row loop of add_lines_with_autosplit (app.py lines
175-202): NaN coordinate rows are hard breaks, unparseable rows are skipped,
consecutive duplicates are dropped, and a jump beyond split_jump_m flushes
the buffer before starting a new one with the current point. -/
noncomputable def lineStep (chosen : Option PyStr) (split_jump_m : ℝ)
    (st : LineState) (row : SheetRow) : LineState :=
  if row.lat = Cell.na ∨ row.lon = Cell.na then
    { emitted := flushInto chosen st.emitted st.seg, seg := [], prev := none }
  else
    match row.lat, row.lon with
    | Cell.num la, Cell.num lo =>
      match st.prev with
      | some p =>
        if ((lo, la) : Point) = p then st
        else if split_jump_m < haversine_m (p.2 : ℝ) (p.1 : ℝ) (la : ℝ) (lo : ℝ) then
          { emitted := flushInto chosen st.emitted st.seg, seg := [(lo, la)], prev := some (lo, la) }
        else
          { emitted := st.emitted, seg := st.seg ++ [(lo, la)], prev := some (lo, la) }
      | none => { emitted := st.emitted, seg := st.seg ++ [(lo, la)], prev := some (lo, la) }
    | _, _ => st

/-- add_lines_with_autosplit (app.py lines 144-205), returning the list of
LineString features it creates (created_any is its non-emptiness). -/
noncomputable def add_lines_with_autosplit (sh : Sheet) (split_jump_m : ℝ) : List PathFeature :=
  if sh.rows = [] then []
  else
    let chosen := chosen_color sh
    let fin := sh.rows.foldl (lineStep chosen split_jump_m) ⟨[], [], none⟩
    flushInto chosen fin.emitted fin.seg

/-- The (lon, lat) point of a row when both coordinates parse. -/
def rowPt (r : SheetRow) : Option Point :=
  match r.lat, r.lon with
  | Cell.num la, Cell.num lo => some (lo, la)
  | _, _ => none

/-- Remove points equal to the running previous point p, keeping the first
of each run (the consecutive-duplicate rule of the builder). -/
def dedupFrom (p : Point) : List Point → List Point
  | [] => []
  | q :: t => if q = p then dedupFrom p t else q :: dedupFrom q t

/-- Consecutive-duplicate removal over a whole point list. -/
def dedupC : List Point → List Point
  | [] => []
  | p :: t => p :: dedupFrom p t

/-! ## Point fallback for Access and Centerline (app.py lines 238-264, 617-632) -/

structure PointFeature where
  name : PyStr
  desc : PyStr
  coord : Point
  iconHref : Option PyStr
deriving DecidableEq

/-- add_access_point (app.py lines 238-264): a point per row with valid
coordinates, name and description from safe_str(Name) or empty, icon from
the lowercase icon column if the sheet has one, else the uppercase one. -/
def add_access_point (hasIconL hasIconU : Bool) (r : SheetRow) : Option PointFeature :=
  match r.lat, r.lon with
  | Cell.num la, Cell.num lo =>
    some { name := (safe_str r.name).getD []
           desc := (safe_str r.name).getD []
           coord := (lo, la)
           iconHref :=
             if hasIconL then safe_str r.iconL
             else if hasIconU then safe_str r.iconU
             else none }
  | _, _ => none

inductive Feature where
  | point : PointFeature → Feature
  | path : PathFeature → Feature
deriving DecidableEq

/-- The Generate-KMZ handler logic for an Access or Centerline sheet
(app.py lines 617-632): build lines with autosplit; if none was created,
fall back to one point per valid-coordinate row. -/
noncomputable def accessFolderFeatures (sh : Sheet) : List Feature :=
  let paths := add_lines_with_autosplit sh 5000
  if paths = [] then
    sh.rows.filterMap (fun r => (add_access_point sh.hasIconL sh.hasIconU r).map Feature.point)
  else paths.map Feature.path

/-! ## Notes hide flags (app.py lines 592-608) -/

/-- One row of the Notes sheet, restricted to the columns the hide-flag
builder reads (Name and the HideNameUntilMouseOver value). -/
structure NotesRow where
  name : Option PyStr
  hideVal : Option PyStr
deriving DecidableEq

/-- The Notes sheet: its column headers and rows. -/
structure NotesSheet where
  cols : List PyStr
  rows : List NotesRow
deriving DecidableEq

/-- The HideNameUntilMouseOver column search (app.py lines 593-597):
first column whose header, stripped and lowercased, matches. -/
def hideColOf (sh : NotesSheet) : Option PyStr :=
  sh.cols.find? (fun c => decide (pyLower (pyStrip c) = pys "hidenameuntilmouseover"))

def falsyTokens : List PyStr := [pys "0", pys "false", pys "no", pys "n", pys "f"]

def truthyTokens : List PyStr := [pys "1", pys "true", pys "yes", pys "y", pys "t"]

/-- Hide flag of one Notes row (app.py lines 601-607).  A matched header is
a nonempty string, hence truthy, so the Python truthiness test on hide_col
is modelled by column presence. -/
def rowHideFlag (hasHideCol : Bool) (v : Option PyStr) : Bool :=
  if hasHideCol then
    match v with
    | some s =>
      if pyLower (pyStrip s) ∈ falsyTokens then false
      else if pyLower (pyStrip s) ∈ truthyTokens then true
      else true
    | none => true
  else true

/-- The dict key for a Notes row: str(safe_str(Name) or "").strip()
(app.py line 600). -/
def rowKeyName (r : NotesRow) : PyStr :=
  pyStrip ((safe_str r.name).getD [])

/-- notes_flags_by_name built by the handler (app.py lines 599-608),
modelled as the lookup function of the Python dict: later rows overwrite
earlier ones with the same key. -/
def buildNotesFlags (sh : NotesSheet) : PyStr → Option Bool :=
  sh.rows.foldl
    (fun d r =>
      fun n => if n = rowKeyName r then some (rowHideFlag (hideColOf sh).isSome r.hideVal) else d n)
    (fun _ => none)

/-! ## Style-indirection post-processor (app.py lines 389-535)

The KML document tree is modelled with the fields the function reads or
writes.  Absent elements and elements with None text are both modelled as
none (both are falsy at every use site).  The insertion position of the new
styles (before the first folder) is not modelled: the output document keeps
the injected styles and style maps in dedicated lists. -/

/-- An inline Style element inside a placemark; iconHref is the text of its
Icon/href descendant when present. -/
structure InlineStyle where
  iconHref : Option PyStr
deriving DecidableEq

/-- A Placemark: name text, inline Style children, styleUrl children texts. -/
structure Pm where
  name : Option PyStr
  inlineStyles : List InlineStyle
  styleUrls : List (Option PyStr)
deriving DecidableEq

/-- A document-level Style element: its id attribute and the text of its
Icon/href descendant. -/
structure DocStyle where
  id : Option PyStr
  iconHref : Option PyStr
deriving DecidableEq

structure Folder where
  name : Option PyStr
  pms : List Pm
deriving DecidableEq

/-- A Style synthesized for Notes (normal or highlight state). -/
structure NoteStyle where
  id : PyStr
  href : PyStr
  labelScale : PyStr
  labelColor : PyStr
deriving DecidableEq

/-- A StyleMap pairing a normal and a highlight style. -/
structure StyleMapDef where
  id : PyStr
  normalUrl : PyStr
  highlightUrl : PyStr
deriving DecidableEq

structure Doc where
  styles : List DocStyle
  noteStyles : List NoteStyle
  styleMaps : List StyleMapDef
  folders : List Folder
deriving DecidableEq

def MAP_NOTE_FALLBACK : PyStr := pys "https://maps.google.com/mapfiles/kml/pal3/icon54.png"

/-- The folder-name test of the Notes search loops (app.py lines 404-407):
name element present, truthy text, stripped lowercased text equal to key. -/
def matchesFolderName (key : PyStr) (f : Folder) : Bool :=
  match f.name with
  | some t => !t.isEmpty && decide (pyLower (pyStrip t) = key)
  | none => false

def findFolderAux (key : PyStr) : List Folder → Option Nat
  | [] => none
  | f :: t => if matchesFolderName key f then some 0 else (findFolderAux key t).map (· + 1)

/-- The two Notes-folder search loops (app.py lines 402-417): first with
notes_folder_name lowercased, then with the literal "notes". -/
def findNotesFolderIdx (folders : List Folder) (nfn : PyStr) : Option Nat :=
  match findFolderAux (pyLower nfn) folders with
  | some i => some i
  | none => findFolderAux (pys "notes") folders

/-- style_by_id lookup (app.py lines 420-424): Python dict keyed by truthy
ids, later elements overwrite earlier ones. -/
def lookupStyle (styles : List DocStyle) (sid : PyStr) : Option DocStyle :=
  if sid = [] then none
  else (styles.filter (fun st => st.id = some sid)).getLast?

/-- href_from_style (app.py lines 426-432). -/
def href_from_style (st : Option DocStyle) : Option PyStr :=
  match st with
  | none => none
  | some s =>
    match s.iconHref with
    | some t => if t = [] then none else some (pyStrip t)
    | none => none

/-- The first Icon/href element text found inside a placemark. -/
def firstIconHrefEl (pm : Pm) : Option PyStr :=
  pm.inlineStyles.findSome? (fun s => s.iconHref)

/-- The styleUrl branch of href_from_pm (app.py lines 440-445). -/
def styleUrlHref (styles : List DocStyle) (pm : Pm) : Option PyStr :=
  match pm.styleUrls.head? with
  | some (some t) =>
    if t ≠ [] ∧ (pyStrip t).head? = some '#' then
      href_from_style (lookupStyle styles ((pyStrip t).drop 1))
    else none
  | _ => none

/-- href_from_pm (app.py lines 434-445): inline Icon/href first, else
follow the first styleUrl into the document styles. -/
def href_from_pm (styles : List DocStyle) (pm : Pm) : Option PyStr :=
  match firstIconHrefEl pm with
  | some t => if t ≠ [] then some (pyStrip t) else styleUrlHref styles pm
  | none => styleUrlHref styles pm

/-- get_name (app.py lines 447-449). -/
def get_name (pm : Pm) : PyStr :=
  match pm.name with
  | some t => pyStrip t
  | none => []

/-- href_from_pm(pm) or MAP_NOTE_FALLBACK (app.py line 457): Python or
falls through on both None and the empty string. -/
def orFallback (v : Option PyStr) : PyStr :=
  match v with
  | some h => if h = [] then MAP_NOTE_FALLBACK else h
  | none => MAP_NOTE_FALLBACK

/-- The (icon href, hide flag) key of a Notes placemark (app.py lines
454-459). -/
def pmKey (styles : List DocStyle) (flags : PyStr → Option Bool) (pm : Pm) : PyStr × Bool :=
  (orFallback (href_from_pm styles pm), (flags (get_name pm)).getD true)

/-- Accumulate a key if it is not present yet (app.py lines 459-461). -/
def addKey (ks : List (PyStr × Bool)) (k : PyStr × Bool) : List (PyStr × Bool) :=
  if k ∈ ks then ks else ks ++ [k]

/-- The ordered list of distinct (href, hide flag) pairs of a placemark
list. -/
def pairsOf (styles : List DocStyle) (flags : PyStr → Option Bool) (pms : List Pm) :
    List (PyStr × Bool) :=
  (pms.map (pmKey styles flags)).foldl addKey []

def smIdOf (i : Nat) : PyStr := pys "sm_notes_" ++ natToStr i

/-- The two Styles and the StyleMap built for one (href, hide flag) pair
with 1-based index i (app.py lines 478-515). -/
def buildPairStyles (i : Nat) (href : PyStr) (flag : Bool) :
    NoteStyle × NoteStyle × StyleMapDef :=
  let smId := smIdOf i
  ( { id := smId ++ pys "_normal"
      href := href
      labelScale := if flag then pys "0.01" else pys "1"
      labelColor := if flag then pys "00ffffff" else pys "ffffffff" },
    { id := smId ++ pys "_highlight"
      href := href
      labelScale := pys "1"
      labelColor := pys "ffffffff" },
    { id := smId
      normalUrl := '#' :: (smId ++ pys "_normal")
      highlightUrl := '#' :: (smId ++ pys "_highlight") } )

/-- The injected normal/highlight styles, in pair order, 1-based ids. -/
def buildNoteStyles (i : Nat) : List (PyStr × Bool) → List NoteStyle
  | [] => []
  | k :: t =>
    (buildPairStyles i k.1 k.2).1 :: (buildPairStyles i k.1 k.2).2.1 :: buildNoteStyles (i + 1) t

/-- The injected StyleMaps, in pair order, 1-based ids. -/
def buildStyleMaps (i : Nat) : List (PyStr × Bool) → List StyleMapDef
  | [] => []
  | k :: t => (buildPairStyles i k.1 k.2).2.2 :: buildStyleMaps (i + 1) t

/-- key_to_smid lookup (app.py lines 477-521). -/
def smIdForAux (i : Nat) (k : PyStr × Bool) : List (PyStr × Bool) → Option PyStr
  | [] => none
  | k0 :: t => if k0 = k then some (smIdOf i) else smIdForAux (i + 1) k t

/-- Rewrite one Notes placemark (app.py lines 520-533): remove styleUrl and
inline Style children, append the styleUrl of its pair StyleMap. -/
def rewritePm (styles : List DocStyle) (flags : PyStr → Option Bool)
    (pairs : List (PyStr × Bool)) (pm : Pm) : Pm :=
  match smIdForAux 1 (pmKey styles flags pm) pairs with
  | some smid => { pm with styleUrls := [some ('#' :: smid)], inlineStyles := [] }
  | none => pm

/-- Replace the folder at index i. -/
def setFolder : List Folder → Nat → Folder → List Folder
  | [], _, _ => []
  | _ :: t, 0, g => g :: t
  | f :: t, n + 1, g => f :: setFolder t n g

/-- inject_hover_stylemaps_for_notes_with_flags (app.py lines 389-535). -/
def inject_hover_stylemaps_for_notes_with_flags (d : Doc) (flags : PyStr → Option Bool)
    (nfn : PyStr) : Doc :=
  match findNotesFolderIdx d.folders nfn with
  | none => d
  | some i =>
    match d.folders[i]? with
    | none => d
    | some nf =>
      let pairs := pairsOf d.styles flags nf.pms
      if pairs = [] then d
      else
        { styles := d.styles
          noteStyles := d.noteStyles ++ buildNoteStyles 1 pairs
          styleMaps := d.styleMaps ++ buildStyleMaps 1 pairs
          folders := setFolder d.folders i
            { nf with pms := nf.pms.map (rewritePm d.styles flags pairs) } }


/-! ## Helper lemmas on stripping -/

lemma dropWhile_all_false (p : Char → Bool) (l : PyStr) (h : ∀ c ∈ l, p c = false) :
    l.dropWhile p = l := by
  cases l with
  | nil => rfl
  | cons c t =>
    rw [List.dropWhile_cons]
    simp [h c (List.mem_cons_self c t)]

lemma pyStrip_eq_self (s : PyStr) (h : ∀ c ∈ s, isPySpace c = false) : pyStrip s = s := by
  unfold pyStrip
  rw [dropWhile_all_false _ _ h,
    dropWhile_all_false _ _ (fun c hc => h c (List.mem_reverse.mp hc)),
    List.reverse_reverse]

lemma digit_not_space (c : Char) (h : c.isDigit = true) : isPySpace c = false := by
  have hmem : ¬ (c ∈ [' ', '\t', '\n', '\r', '\x0b', '\x0c']) := by
    intro hm
    fin_cases hm <;> exact absurd h (by decide)
  unfold isPySpace
  exact decide_eq_false hmem

lemma safe_str_of_ne (s : PyStr) (h : pyStrip s ≠ []) :
    safe_str (some s) = some (pyStrip s) := by
  unfold safe_str
  simp [h]

lemma normalize_color_value_some (val : Option PyStr) (c : PyStr)
    (h : safe_str val = some c) : normalize_color_value val = normColorBody c := by
  unfold normalize_color_value
  rw [h]

lemma normalize_color_value_of_none (val : Option PyStr)
    (h : safe_str val = none) : normalize_color_value val = none := by
  unfold normalize_color_value
  rw [h]

/-! ## Claim C3 -/

/-- Claim C3: a purely-digit identifier with at least one leading zero (a
zero preceding at least one further digit) is returned unchanged by
normalize_agm_name. -/
theorem C3_leading_zero_digits_unchanged (s : PyStr)
    (hdig : ∀ c ∈ s, c.isDigit = true)
    (hzero : s.head? = some '0')
    (hlen : 2 ≤ s.length) :
    normalize_agm_name (some s) = s := by
  match s, hzero with
  | c0 :: t, hzero =>
    have hc0 : c0 = '0' := by simpa using hzero
    subst hc0
    match t, hlen with
    | c1 :: t1, _ =>
      have hstrip : pyStrip ('0' :: c1 :: t1) = '0' :: c1 :: t1 :=
        pyStrip_eq_self _ (fun c hc => digit_not_space c (hdig c hc))
      have hsafe : safe_str (some ('0' :: c1 :: t1)) = some ('0' :: c1 :: t1) := by
        rw [safe_str_of_ne _ (by rw [hstrip]; exact List.cons_ne_nil _ _), hstrip]
      have hmatch : matchesLeadingZeroDigits ('0' :: c1 :: t1) = true := by
        simp only [matchesLeadingZeroDigits, Bool.and_eq_true, decide_eq_true_eq,
          List.all_eq_true, true_and]
        exact fun c hc => hdig c (List.mem_cons_of_mem _ hc)
      unfold normalize_agm_name
      rw [hsafe]
      simp [hmatch]

/-- Witness for C3 at the concrete identifier "007". -/
theorem C3_witness :
    (∀ c ∈ pys "007", c.isDigit = true) ∧ (pys "007").head? = some '0' ∧
      2 ≤ (pys "007").length ∧ normalize_agm_name (some (pys "007")) = pys "007" :=
  ⟨by decide, by decide, by decide,
    C3_leading_zero_digits_unchanged (pys "007") (by decide) (by decide) (by decide)⟩

/-! ## Claim C4 -/

/-- Claim C4 counterexample: an uppercase 8-hex-digit string is not
returned as-is but lowercased. -/
theorem C4_counterexample :
    normalize_color_value (some (pys "AABBCCDD")) = some (pys "aabbccdd") ∧
      normalize_color_value (some (pys "AABBCCDD")) ≠ some (pys "AABBCCDD") := by
  decide

lemma palette_find_red :
    KML_COLOR_MAP.find? (fun kv => kv.1 = pys "red") = some (pys "red", pys "ff0000ff") := by
  decide

lemma palette_find_blue :
    KML_COLOR_MAP.find? (fun kv => kv.1 = pys "blue") = some (pys "blue", pys "ffff0000") := by
  decide

lemma palette_find_yellow :
    KML_COLOR_MAP.find? (fun kv => kv.1 = pys "yellow") = some (pys "yellow", pys "ff00ffff") := by
  decide

lemma palette_find_purple :
    KML_COLOR_MAP.find? (fun kv => kv.1 = pys "purple") = some (pys "purple", pys "ff800080") := by
  decide

lemma palette_find_green :
    KML_COLOR_MAP.find? (fun kv => kv.1 = pys "green") = some (pys "green", pys "ff00ff00") := by
  decide

lemma palette_find_orange :
    KML_COLOR_MAP.find? (fun kv => kv.1 = pys "orange") = some (pys "orange", pys "ff008cff") := by
  decide

lemma palette_find_white :
    KML_COLOR_MAP.find? (fun kv => kv.1 = pys "white") = some (pys "white", pys "ffffffff") := by
  decide

lemma palette_find_black :
    KML_COLOR_MAP.find? (fun kv => kv.1 = pys "black") = some (pys "black", pys "ff000000") := by
  decide

lemma normalize_color_named (s nm col : PyStr)
    (hmem : (nm, col) ∈ KML_COLOR_MAP) (hlow : pyLower (pyStrip s) = nm) :
    normalize_color_value (some s) = some col := by
  simp only [KML_COLOR_MAP, List.mem_cons, List.not_mem_nil, or_false] at hmem
  rcases hmem with h|h|h|h|h|h|h|h <;>
    · injection h with h1 h2
      subst h1
      subst h2
      have hne : pyStrip s ≠ [] := by
        intro h0
        rw [h0] at hlow
        exact absurd hlow (by decide)
      rw [normalize_color_value_some _ _ (safe_str_of_ne s hne)]
      simp only [normColorBody]
      rw [hlow]
      simp only [palette_find_red, palette_find_blue, palette_find_yellow,
        palette_find_purple, palette_find_green, palette_find_orange,
        palette_find_white, palette_find_black]

lemma palette_find_none_of_len8 (cl : PyStr) (hlen : cl.length = 8) :
    KML_COLOR_MAP.find? (fun kv => kv.1 = cl) = none := by
  apply List.find?_eq_none.mpr
  intro kv hmem
  simp only [KML_COLOR_MAP] at hmem
  fin_cases hmem <;>
    · simp only [decide_eq_true_eq]
      intro h
      rw [← h] at hlen
      exact absurd hlen (by decide)

/-- Claim C4 amended: normalize_color_value maps the eight palette names
(case-insensitively, after stripping) to the literal table values, returns
any stripped 8-character hexadecimal string lowercased (not as-is), and
yields none for absent cells, blank cells, and every other value. -/
theorem C4_amended_color_normalization :
    (∀ s nm col, (nm, col) ∈ KML_COLOR_MAP → pyLower (pyStrip s) = nm →
        normalize_color_value (some s) = some col) ∧
    (∀ s, (pyStrip s).length = 8 → (pyStrip s).all isHexDigitPy = true →
        normalize_color_value (some s) = some (pyLower (pyStrip s))) ∧
    normalize_color_value none = none ∧
    (∀ s, pyStrip s = [] → normalize_color_value (some s) = none) ∧
    (∀ s, (∀ nm col, (nm, col) ∈ KML_COLOR_MAP → pyLower (pyStrip s) ≠ nm) →
        ¬((pyStrip s).length = 8 ∧ (pyStrip s).all isHexDigitPy = true) →
        normalize_color_value (some s) = none) := by
  refine ⟨fun s nm col hmem hlow => normalize_color_named s nm col hmem hlow, ?_, rfl, ?_, ?_⟩
  · intro s hlen hhex
    have hne : pyStrip s ≠ [] := by
      intro h0
      rw [h0] at hlen
      exact absurd hlen (by decide)
    rw [normalize_color_value_some _ _ (safe_str_of_ne s hne)]
    simp only [normColorBody]
    rw [palette_find_none_of_len8 (pyLower (pyStrip s)) (by rw [pyLower, List.length_map, hlen])]
    simp [hlen, hhex]
  · intro s h0
    apply normalize_color_value_of_none
    unfold safe_str
    simp [h0]
  · intro s hnm hnothex
    by_cases h0 : pyStrip s = []
    · apply normalize_color_value_of_none
      unfold safe_str
      simp [h0]
    · rw [normalize_color_value_some _ _ (safe_str_of_ne s h0)]
      simp only [normColorBody]
      have hfind : KML_COLOR_MAP.find? (fun kv => kv.1 = pyLower (pyStrip s)) = none := by
        apply List.find?_eq_none.mpr
        intro kv hmem
        simp only [decide_eq_true_eq]
        intro h
        exact hnm kv.1 kv.2 (by simpa using hmem) h.symm
      rw [hfind]
      rw [if_neg hnothex]

/-- Witness for the amended C4, exercising the palette branch at "Red" and
the hex branch at "aabbccDD". -/
theorem C4_witness :
    (pys "red", pys "ff0000ff") ∈ KML_COLOR_MAP ∧
      pyLower (pyStrip (pys "Red")) = pys "red" ∧
      normalize_color_value (some (pys "Red")) = some (pys "ff0000ff") ∧
      normalize_color_value (some (pys "aabbccDD")) = some (pyLower (pyStrip (pys "aabbccDD"))) :=
  ⟨by decide, by decide,
    C4_amended_color_normalization.1 (pys "Red") (pys "red") (pys "ff0000ff")
      (by decide) (by decide),
    C4_amended_color_normalization.2.1 (pys "aabbccDD") (by decide) (by decide)⟩

/-! ## Claim C9 -/

/-- Claim C9: when the Notes sheet has no HideNameUntilMouseOver column, or
a row's value there is absent or not a recognized truthy/falsy token after
trimming and lowercasing, the hide-until-hover flag is true; a placemark
whose name is not in the flags dict also defaults to true, and the style
pair synthesized for a hidden placemark hides the label at rest (scale
0.01, transparent color) and reveals it on hover (scale 1, opaque). -/
theorem C9_hide_flag_defaults_true :
    (∀ (sh : NotesSheet) (r : NotesRow),
        (hideColOf sh = none ∨ r.hideVal = none ∨
          (∀ s, r.hideVal = some s →
            pyLower (pyStrip s) ∉ truthyTokens ∧ pyLower (pyStrip s) ∉ falsyTokens)) →
        rowHideFlag (hideColOf sh).isSome r.hideVal = true) ∧
    (∀ (styles : List DocStyle) (flags : PyStr → Option Bool) (pm : Pm),
        flags (get_name pm) = none → (pmKey styles flags pm).2 = true) ∧
    (∀ i href,
        (buildPairStyles i href true).1.labelScale = pys "0.01" ∧
        (buildPairStyles i href true).1.labelColor = pys "00ffffff" ∧
        (buildPairStyles i href true).2.1.labelScale = pys "1" ∧
        (buildPairStyles i href true).2.1.labelColor = pys "ffffffff") := by
  refine ⟨?_, ?_, fun i href => ⟨rfl, rfl, rfl, rfl⟩⟩
  · intro sh r h
    unfold rowHideFlag
    rcases h with h | h | h
    · simp [h]
    · simp [h]
    · cases hv : r.hideVal with
      | none => simp
      | some s =>
        obtain ⟨ht, hf⟩ := h s hv
        simp [ht, hf]
  · intro styles flags pm h
    unfold pmKey
    rw [h]
    rfl

/-- Witness for C9: a sheet without the hide column yields flag true, and a
placemark missing from the flags dict gets key flag true. -/
theorem C9_witness :
    rowHideFlag (hideColOf ⟨[pys "Name"], [⟨some (pys "a"), none⟩]⟩).isSome
        ((⟨some (pys "a"), none⟩ : NotesRow).hideVal) = true ∧
      (pmKey [] (fun _ => none) ⟨some (pys "a"), [], []⟩).2 = true :=
  ⟨C9_hide_flag_defaults_true.1 ⟨[pys "Name"], [⟨some (pys "a"), none⟩]⟩
      ⟨some (pys "a"), none⟩ (Or.inl (by decide)),
    C9_hide_flag_defaults_true.2.1 [] (fun _ => none) ⟨some (pys "a"), [], []⟩ rfl⟩

/-! ## Claim C10 -/

lemma foldFlags_eq (hc : Bool) (rows : List NotesRow) (n : PyStr) :
    (rows.foldl
        (fun d r => fun m =>
          if m = rowKeyName r then some (rowHideFlag hc r.hideVal) else d m)
        (fun _ => none)) n
      = ((rows.filter (fun r => rowKeyName r = n)).getLast?).map
          (fun r => rowHideFlag hc r.hideVal) := by
  induction rows using List.reverseRecOn with
  | nil => rfl
  | append_singleton rows r ih =>
    rw [List.foldl_append, List.foldl_cons, List.foldl_nil, List.filter_append]
    by_cases hk : rowKeyName r = n
    · have : n = rowKeyName r := hk.symm
      rw [if_pos this]
      have hfr : List.filter (fun r => decide (rowKeyName r = n)) [r] = [r] := by
        simp [List.filter, hk]
      rw [hfr, List.getLast?_concat]
      rfl
    · rw [if_neg (fun h => hk h.symm)]
      have hfr : List.filter (fun r => decide (rowKeyName r = n)) [r] = [] := by
        simp [List.filter, hk]
      rw [hfr, List.append_nil]
      exact ih

/-- Claim C10: Notes hide flags are keyed by normalized name string, not by
row: the dict lookup returns the flag of the last row with that key name
(later rows overwrite earlier ones), and any two placemarks with the same
name receive the same flag in the post-processor. -/
theorem C10_flags_keyed_by_name :
    (∀ (sh : NotesSheet) (n : PyStr),
        buildNotesFlags sh n =
          ((sh.rows.filter (fun r => rowKeyName r = n)).getLast?).map
            (fun r => rowHideFlag (hideColOf sh).isSome r.hideVal)) ∧
    (∀ (styles : List DocStyle) (flags : PyStr → Option Bool) (pm1 pm2 : Pm),
        get_name pm1 = get_name pm2 →
        (pmKey styles flags pm1).2 = (pmKey styles flags pm2).2) := by
  refine ⟨?_, ?_⟩
  · intro sh n
    unfold buildNotesFlags
    exact foldFlags_eq (hideColOf sh).isSome sh.rows n
  · intro styles flags pm1 pm2 h
    unfold pmKey
    rw [h]

/-- Witness for C10: two Notes rows named "x", first truthy and second
falsy; the dict records the later (false) flag, and two placemarks named
"x" share the flag. -/
theorem C10_witness :
    buildNotesFlags ⟨[pys "HideNameUntilMouseOver"],
        [⟨some (pys "x"), some (pys "yes")⟩, ⟨some (pys "x"), some (pys "no")⟩]⟩ (pys "x")
      = (((⟨[pys "HideNameUntilMouseOver"],
          [⟨some (pys "x"), some (pys "yes")⟩, ⟨some (pys "x"), some (pys "no")⟩]⟩ :
            NotesSheet).rows.filter (fun r => rowKeyName r = pys "x")).getLast?).map
          (fun r => rowHideFlag true r.hideVal) ∧
    buildNotesFlags ⟨[pys "HideNameUntilMouseOver"],
        [⟨some (pys "x"), some (pys "yes")⟩, ⟨some (pys "x"), some (pys "no")⟩]⟩ (pys "x")
      = some false ∧
    (pmKey [] (fun _ => some false) ⟨some (pys "x"), [], []⟩).2
      = (pmKey [] (fun _ => some false) ⟨some (pys " x "), [], []⟩).2 :=
  ⟨C10_flags_keyed_by_name.1 _ (pys "x"), by decide,
    C10_flags_keyed_by_name.2 [] (fun _ => some false)
      ⟨some (pys "x"), [], []⟩ ⟨some (pys " x "), [], []⟩ (by decide)⟩

/-! ## Claim C2 -/

lemma addKey_fold_mem (ks acc : List (PyStr × Bool)) (k : PyStr × Bool) :
    k ∈ ks.foldl addKey acc ↔ k ∈ acc ∨ k ∈ ks := by
  induction ks generalizing acc with
  | nil => simp
  | cons k0 t ih =>
    rw [List.foldl_cons, ih]
    unfold addKey
    by_cases h : k0 ∈ acc
    · rw [if_pos h]
      simp only [List.mem_cons]
      constructor
      · rintro (ha | ht)
        · exact Or.inl ha
        · exact Or.inr (Or.inr ht)
      · rintro (ha | rfl | ht)
        · exact Or.inl ha
        · exact Or.inl h
        · exact Or.inr ht
    · rw [if_neg h]
      simp only [List.mem_append, List.mem_singleton, List.mem_cons]
      tauto

lemma addKey_fold_nodup (ks acc : List (PyStr × Bool)) (hacc : acc.Nodup) :
    (ks.foldl addKey acc).Nodup := by
  induction ks generalizing acc with
  | nil => simpa
  | cons k0 t ih =>
    rw [List.foldl_cons]
    apply ih
    unfold addKey
    by_cases h : k0 ∈ acc
    · rwa [if_pos h]
    · rw [if_neg h]
      refine List.Nodup.append hacc (List.nodup_singleton _) ?_
      intro a ha hb
      rw [List.mem_singleton] at hb
      subst hb
      exact h ha

lemma buildStyleMaps_length (i : Nat) (ks : List (PyStr × Bool)) :
    (buildStyleMaps i ks).length = ks.length := by
  induction ks generalizing i with
  | nil => rfl
  | cons k t ih =>
    unfold buildStyleMaps
    rw [List.length_cons, ih (i + 1), List.length_cons]

/-- Claim C2 amended: the post-processor creates exactly one StyleMap per
distinct (resolved icon reference, hide flag) pair among the Notes
placemarks — not one per icon reference regardless of hide flags. -/
theorem C2_amended_one_stylemap_per_pair (d : Doc) (flags : PyStr → Option Bool) (i : Nat)
    (nf : Folder) (hfind : findNotesFolderIdx d.folders (pys "Notes") = some i)
    (hget : d.folders[i]? = some nf) :
    (inject_hover_stylemaps_for_notes_with_flags d flags (pys "Notes")).styleMaps.length
        = d.styleMaps.length + (pairsOf d.styles flags nf.pms).length ∧
      (pairsOf d.styles flags nf.pms).Nodup ∧
      (∀ k, k ∈ pairsOf d.styles flags nf.pms ↔ k ∈ nf.pms.map (pmKey d.styles flags)) := by
  refine ⟨?_, addKey_fold_nodup _ _ List.nodup_nil, fun k => by
    unfold pairsOf
    rw [addKey_fold_mem]
    simp⟩
  unfold inject_hover_stylemaps_for_notes_with_flags
  simp only [hfind, hget]
  by_cases hp : pairsOf d.styles flags nf.pms = []
  · rw [if_pos hp, hp]
    simp
  · rw [if_neg hp]
    simp only [List.length_append]
    rw [buildStyleMaps_length]

/-- Claim C2 counterexample: two Notes placemarks with the same resolved
icon reference but different hide flags yield two StyleMaps, not one. -/
theorem C2_counterexample :
    (inject_hover_stylemaps_for_notes_with_flags
        ⟨[], [], [],
          [⟨some (pys "Notes"),
            [⟨some (pys "a"), [⟨some (pys "http://i.png")⟩], []⟩,
             ⟨some (pys "b"), [⟨some (pys "http://i.png")⟩], []⟩]⟩]⟩
        (fun n => if n = pys "a" then some true
                  else if n = pys "b" then some false else none)
        (pys "Notes")).styleMaps.length = 2 ∧
      orFallback (href_from_pm []
          ⟨some (pys "a"), [⟨some (pys "http://i.png")⟩], []⟩)
        = orFallback (href_from_pm []
          ⟨some (pys "b"), [⟨some (pys "http://i.png")⟩], []⟩) := by
  decide

/-- Witness for the amended C2 at a one-placemark document. -/
theorem C2_witness :
    (inject_hover_stylemaps_for_notes_with_flags
        ⟨[], [], [], [⟨some (pys "Notes"), [⟨some (pys "a"), [], []⟩]⟩]⟩
        (fun _ => none) (pys "Notes")).styleMaps.length
      = ([] : List StyleMapDef).length
        + (pairsOf [] (fun _ => none) [⟨some (pys "a"), [], []⟩]).length ∧
      (pairsOf [] (fun _ => none) [⟨some (pys "a"), [], []⟩]).Nodup :=
  ⟨(C2_amended_one_stylemap_per_pair
      ⟨[], [], [], [⟨some (pys "Notes"), [⟨some (pys "a"), [], []⟩]⟩]⟩
      (fun _ => none) 0 ⟨some (pys "Notes"), [⟨some (pys "a"), [], []⟩]⟩
      (by decide) (by decide)).1,
    (C2_amended_one_stylemap_per_pair
      ⟨[], [], [], [⟨some (pys "Notes"), [⟨some (pys "a"), [], []⟩]⟩]⟩
      (fun _ => none) 0 ⟨some (pys "Notes"), [⟨some (pys "a"), [], []⟩]⟩
      (by decide) (by decide)).2.1⟩

/-! ## Claim C8 -/

lemma findFolderAux_some (key : PyStr) (l : List Folder) (i : Nat)
    (h : findFolderAux key l = some i) :
    ∃ f, l[i]? = some f ∧ matchesFolderName key f = true := by
  induction l generalizing i with
  | nil => exact Option.noConfusion h
  | cons f t ih =>
    unfold findFolderAux at h
    by_cases hm : matchesFolderName key f
    · rw [if_pos hm] at h
      injection h with h0
      subst h0
      exact ⟨f, by simp, hm⟩
    · rw [if_neg hm] at h
      by_cases ht : findFolderAux key t = none
      · rw [ht] at h
        exact Option.noConfusion h
      · obtain ⟨j, hj⟩ := Option.ne_none_iff_exists'.mp ht
        rw [hj] at h
        have h0 : j + 1 = i := by simpa using h
        obtain ⟨g, hg, hmg⟩ := ih j hj
        refine ⟨g, ?_, hmg⟩
        rw [← h0]
        simpa using hg

lemma lower_Notes : pyLower (pys "Notes") = pys "notes" := by decide

lemma findNotes_Notes (folders : List Folder) (i : Nat)
    (h : findNotesFolderIdx folders (pys "Notes") = some i) :
    findFolderAux (pys "notes") folders = some i := by
  unfold findNotesFolderIdx at h
  rw [lower_Notes] at h
  by_cases hfa : findFolderAux (pys "notes") folders = none
  · rw [hfa] at h
    exact Option.noConfusion h
  · obtain ⟨j, hj⟩ := Option.ne_none_iff_exists'.mp hfa
    rw [hj] at h
    rw [hj]
    exact h

lemma setFolder_getElem_ne (l : List Folder) (i : Nat) (g : Folder) (j : Nat)
    (h : j ≠ i) : (setFolder l i g)[j]? = l[j]? := by
  induction l generalizing i j with
  | nil => cases i <;> rfl
  | cons f t ih =>
    cases i with
    | zero =>
      cases j with
      | zero => exact absurd rfl h
      | succ j2 => simp [setFolder]
    | succ n =>
      cases j with
      | zero => simp [setFolder]
      | succ j2 =>
        simp only [setFolder, List.getElem?_cons_succ]
        exact ih n j2 (fun heq => h (by rw [heq]))

/-- Claim C8: with the caller's folder name "Notes", the post-processor
returns the document unchanged when no folder matches "notes"
case-insensitively, and otherwise rewrites only the matched folder: every
other folder and the original document styles are unchanged, and the
rewritten folder is one whose name matches "notes" case-insensitively. -/
theorem C8_non_notes_untouched (d : Doc) (flags : PyStr → Option Bool) :
    (findNotesFolderIdx d.folders (pys "Notes") = none →
        inject_hover_stylemaps_for_notes_with_flags d flags (pys "Notes") = d) ∧
    (∀ i, findNotesFolderIdx d.folders (pys "Notes") = some i →
        (∀ j, j ≠ i →
          (inject_hover_stylemaps_for_notes_with_flags d flags (pys "Notes")).folders[j]?
            = d.folders[j]?) ∧
        (inject_hover_stylemaps_for_notes_with_flags d flags (pys "Notes")).styles
          = d.styles ∧
        ∃ f, d.folders[i]? = some f ∧ matchesFolderName (pys "notes") f = true) := by
  constructor
  · intro h
    unfold inject_hover_stylemaps_for_notes_with_flags
    rw [h]
  · intro i h
    obtain ⟨f, hget, hmf⟩ := findFolderAux_some _ _ _ (findNotes_Notes d.folders i h)
    refine ⟨?_, ?_, f, hget, hmf⟩
    · intro j hj
      unfold inject_hover_stylemaps_for_notes_with_flags
      simp only [h, hget]
      by_cases hp : pairsOf d.styles flags f.pms = []
      · rw [if_pos hp]
      · rw [if_neg hp]
        exact setFolder_getElem_ne d.folders i _ j hj
    · unfold inject_hover_stylemaps_for_notes_with_flags
      simp only [h, hget]
      by_cases hp : pairsOf d.styles flags f.pms = []
      · rw [if_pos hp]
      · rw [if_neg hp]

/-- Witness for C8: a document without a Notes folder is returned
unchanged, and in a document with one Notes folder and one AGMs folder the
AGMs folder is untouched. -/
theorem C8_witness :
    inject_hover_stylemaps_for_notes_with_flags
        ⟨[], [], [], [⟨some (pys "AGMs"), [⟨some (pys "p"), [], []⟩]⟩]⟩
        (fun _ => none) (pys "Notes")
      = ⟨[], [], [], [⟨some (pys "AGMs"), [⟨some (pys "p"), [], []⟩]⟩]⟩ ∧
      (inject_hover_stylemaps_for_notes_with_flags
          ⟨[], [], [],
            [⟨some (pys "Notes"), [⟨some (pys "n"), [], []⟩]⟩,
             ⟨some (pys "AGMs"), [⟨some (pys "p"), [], []⟩]⟩]⟩
          (fun _ => none) (pys "Notes")).folders[1]?
        = some ⟨some (pys "AGMs"), [⟨some (pys "p"), [], []⟩]⟩ :=
  ⟨(C8_non_notes_untouched
      ⟨[], [], [], [⟨some (pys "AGMs"), [⟨some (pys "p"), [], []⟩]⟩]⟩
      (fun _ => none)).1 (by decide),
    by
      rw [((C8_non_notes_untouched
          ⟨[], [], [],
            [⟨some (pys "Notes"), [⟨some (pys "n"), [], []⟩]⟩,
             ⟨some (pys "AGMs"), [⟨some (pys "p"), [], []⟩]⟩]⟩
          (fun _ => none)).2 0 (by decide)).1 1 (by decide)]
      decide⟩

/-! ## Step lemmas for the geometry builder -/

lemma lineStep_na (chosen : Option PyStr) (thr : ℝ) (st : LineState) (r : SheetRow)
    (h : r.lat = Cell.na ∨ r.lon = Cell.na) :
    lineStep chosen thr st r =
      { emitted := flushInto chosen st.emitted st.seg, seg := [], prev := none } := by
  unfold lineStep
  rw [if_pos h]

lemma lineStep_num_first (chosen : Option PyStr) (thr : ℝ) (st : LineState) (r : SheetRow)
    (la lo : ℚ) (hlat : r.lat = Cell.num la) (hlon : r.lon = Cell.num lo)
    (hprev : st.prev = none) :
    lineStep chosen thr st r =
      { emitted := st.emitted, seg := st.seg ++ [(lo, la)], prev := some (lo, la) } := by
  obtain ⟨em, seg, prev⟩ := st
  simp only at hprev
  subst hprev
  simp only [lineStep, hlat, hlon]
  rw [if_neg (show ¬(Cell.num la = Cell.na ∨ Cell.num lo = Cell.na) by simp)]

lemma lineStep_num_skip (chosen : Option PyStr) (thr : ℝ) (st : LineState) (r : SheetRow)
    (la lo : ℚ) (p : Point) (hlat : r.lat = Cell.num la) (hlon : r.lon = Cell.num lo)
    (hprev : st.prev = some p) (heq : ((lo, la) : Point) = p) :
    lineStep chosen thr st r = st := by
  obtain ⟨em, seg, prev⟩ := st
  simp only at hprev
  subst hprev
  simp only [lineStep, hlat, hlon]
  rw [if_neg (show ¬(Cell.num la = Cell.na ∨ Cell.num lo = Cell.na) by simp)]
  rw [if_pos heq]

lemma lineStep_num_append (chosen : Option PyStr) (thr : ℝ) (st : LineState) (r : SheetRow)
    (la lo : ℚ) (p : Point) (hlat : r.lat = Cell.num la) (hlon : r.lon = Cell.num lo)
    (hprev : st.prev = some p) (hne : ((lo, la) : Point) ≠ p)
    (hjump : ¬ (thr < haversine_m (p.2 : ℝ) (p.1 : ℝ) (la : ℝ) (lo : ℝ))) :
    lineStep chosen thr st r =
      { emitted := st.emitted, seg := st.seg ++ [(lo, la)], prev := some (lo, la) } := by
  obtain ⟨em, seg, prev⟩ := st
  simp only at hprev
  subst hprev
  simp only [lineStep, hlat, hlon]
  rw [if_neg (show ¬(Cell.num la = Cell.na ∨ Cell.num lo = Cell.na) by simp)]
  rw [if_neg hne, if_neg hjump]

lemma add_lines_eq (sh : Sheet) (thr : ℝ) (h : sh.rows ≠ []) :
    add_lines_with_autosplit sh thr =
      flushInto (chosen_color sh)
        (sh.rows.foldl (lineStep (chosen_color sh) thr) ⟨[], [], none⟩).emitted
        (sh.rows.foldl (lineStep (chosen_color sh) thr) ⟨[], [], none⟩).seg := by
  unfold add_lines_with_autosplit
  rw [if_neg h]

/-! ## Claim C5 -/

/-- Claim C5: when a valid point is farther than the 5000 m threshold (by
haversine, R = 6371000) from the previous buffered point, the step flushes
the current buffer as a candidate segment and starts a new buffer holding
just the new point. -/
theorem C5_jump_splits (chosen : Option PyStr) (st : LineState) (r : SheetRow)
    (la lo : ℚ) (p : Point)
    (hlat : r.lat = Cell.num la) (hlon : r.lon = Cell.num lo)
    (hprev : st.prev = some p) (hne : ((lo, la) : Point) ≠ p)
    (hjump : (5000 : ℝ) < haversine_m (p.2 : ℝ) (p.1 : ℝ) (la : ℝ) (lo : ℝ)) :
    lineStep chosen 5000 st r =
      { emitted := flushInto chosen st.emitted st.seg
        seg := [(lo, la)]
        prev := some (lo, la) } := by
  obtain ⟨em, seg, prev⟩ := st
  simp only at hprev
  subst hprev
  simp only [lineStep, hlat, hlon]
  rw [if_neg (show ¬(Cell.num la = Cell.na ∨ Cell.num lo = Cell.na) by simp)]
  rw [if_neg hne, if_pos hjump]

/-- Witness for C5: a one-degree longitude jump at the equator (about
111 km) splits the buffer. -/
theorem C5_witness :
    ((5000 : ℝ) < haversine_m ((0 : ℚ) : ℝ) ((0 : ℚ) : ℝ) ((0 : ℚ) : ℝ) ((1 : ℚ) : ℝ)) ∧
      lineStep none 5000 ⟨[], [((0:ℚ), (0:ℚ))], some ((0:ℚ), (0:ℚ))⟩
          ⟨none, Cell.num 0, Cell.num 1, none, none, none⟩
        = { emitted := flushInto none [] [((0:ℚ), (0:ℚ))]
            seg := [((1:ℚ), (0:ℚ))]
            prev := some ((1:ℚ), (0:ℚ)) } := by
  have hj : (5000 : ℝ) < haversine_m ((0 : ℚ) : ℝ) ((0 : ℚ) : ℝ) ((0 : ℚ) : ℝ) ((1 : ℚ) : ℝ) := by
    push_cast
    exact hav_gt_1deg
  exact ⟨hj, C5_jump_splits none ⟨[], [((0:ℚ), (0:ℚ))], some ((0:ℚ), (0:ℚ))⟩
    ⟨none, Cell.num 0, Cell.num 1, none, none, none⟩ 0 1 ((0:ℚ), (0:ℚ))
    rfl rfl rfl (by decide) hj⟩

/-! ## Claim C7 -/

/-- Claim C7: when the geometry builder produces zero paths for an Access
or Centerline sheet, the handler emits exactly one point per row with valid
numeric coordinates (rows with missing or unparseable coordinates yield no
feature). -/
theorem C7_point_fallback (sh : Sheet)
    (hempty : add_lines_with_autosplit sh 5000 = []) :
    accessFolderFeatures sh
        = sh.rows.filterMap
            (fun r => (add_access_point sh.hasIconL sh.hasIconU r).map Feature.point) ∧
      (∀ r ∈ sh.rows, (add_access_point sh.hasIconL sh.hasIconU r).isSome
          ↔ ∃ a b, r.lat = Cell.num a ∧ r.lon = Cell.num b) := by
  constructor
  · unfold accessFolderFeatures
    rw [if_pos hempty]
  · intro r _
    rcases hlat : r.lat with _ | a | _ <;> rcases hlon : r.lon with _ | b | _ <;>
      simp [add_access_point, hlat, hlon]

def shC7 : Sheet :=
  ⟨false, false, false,
    [⟨none, Cell.num 0, Cell.num 0, none, none, none⟩,
     ⟨none, Cell.na, Cell.na, none, none, none⟩]⟩

/-- Witness for C7: a sheet with one valid-coordinate row and one blank row
produces no path, and the fallback emits exactly one point. -/
theorem C7_witness :
    add_lines_with_autosplit shC7 5000 = [] ∧
      accessFolderFeatures shC7 = [Feature.point ⟨[], [], ((0:ℚ), (0:ℚ)), none⟩] := by
  have hempty : add_lines_with_autosplit shC7 5000 = [] := by
    rw [add_lines_eq shC7 5000 (by decide)]
    have hrows : shC7.rows =
        [⟨none, Cell.num 0, Cell.num 0, none, none, none⟩,
         ⟨none, Cell.na, Cell.na, none, none, none⟩] := rfl
    rw [hrows, List.foldl_cons,
      lineStep_num_first (chosen_color shC7) 5000 ⟨[], [], none⟩ _ 0 0 rfl rfl rfl,
      List.foldl_cons,
      lineStep_na (chosen_color shC7) 5000 _ _ (Or.inl rfl),
      List.foldl_nil]
    decide
  refine ⟨hempty, ?_⟩
  rw [(C7_point_fallback shC7 hempty).1]
  decide

/-! ## Claim C6 -/

/-- The style contract all emitted paths of one invocation satisfy. -/
def pathStyleOk (chosen : Option PyStr) (p : PathFeature) : Prop :=
  p.color = (lineStyleOf chosen).1 ∧ p.width = (lineStyleOf chosen).2

lemma flushInto_styleOk (chosen : Option PyStr) (em : List PathFeature) (seg : List Point)
    (h : ∀ p ∈ em, pathStyleOk chosen p) :
    ∀ p ∈ flushInto chosen em seg, pathStyleOk chosen p := by
  intro p hp
  unfold flushInto at hp
  by_cases hl : seg.length < 2
  · rw [if_pos hl] at hp
    exact h p hp
  · rw [if_neg hl] at hp
    rcases List.mem_append.mp hp with h1 | h1
    · exact h p h1
    · rw [List.mem_singleton] at h1
      subst h1
      exact ⟨rfl, rfl⟩

lemma lineStep_styleOk (chosen : Option PyStr) (thr : ℝ) (st : LineState) (r : SheetRow)
    (h : ∀ p ∈ st.emitted, pathStyleOk chosen p) :
    ∀ p ∈ (lineStep chosen thr st r).emitted, pathStyleOk chosen p := by
  intro p hp
  unfold lineStep at hp
  split at hp
  · exact flushInto_styleOk chosen st.emitted st.seg h p hp
  · split at hp
    · split at hp
      · split at hp
        · exact h p hp
        · split at hp
          · exact flushInto_styleOk chosen st.emitted st.seg h p hp
          · exact h p hp
      · exact h p hp
    · exact h p hp

lemma foldl_lineStep_styleOk (chosen : Option PyStr) (thr : ℝ) (rows : List SheetRow) :
    ∀ st : LineState, (∀ p ∈ st.emitted, pathStyleOk chosen p) →
      ∀ p ∈ (rows.foldl (lineStep chosen thr) st).emitted, pathStyleOk chosen p := by
  induction rows with
  | nil => intro st h; exact h
  | cons r t ih =>
    intro st h
    rw [List.foldl_cons]
    exact ih _ (lineStep_styleOk chosen thr st r h)

/-- Claim C6 amended: every path emitted from one sheet invocation carries
the same single style, derived from the first non-NaN value of the color
column; in particular no two paths of one invocation differ in color. -/
theorem C6_amended_single_sheet_color (sh : Sheet) (thr : ℝ) :
    ∀ p ∈ add_lines_with_autosplit sh thr,
      p.color = (lineStyleOf (chosen_color sh)).1 ∧
        p.width = (lineStyleOf (chosen_color sh)).2 := by
  intro p hp
  by_cases hr : sh.rows = []
  · unfold add_lines_with_autosplit at hp
    rw [if_pos hr] at hp
    simp at hp
  · rw [add_lines_eq sh thr hr] at hp
    exact flushInto_styleOk _ _ _
      (foldl_lineStep_styleOk (chosen_color sh) thr sh.rows ⟨[], [], none⟩ (by simp)) p hp

lemma no_jump_01 :
    ¬ ((5000 : ℝ) < haversine_m ((0:ℚ) : ℝ) ((0:ℚ) : ℝ) ((0:ℚ) : ℝ) ((q1000 : ℚ) : ℝ)) := by
  rw [q1000_cast]
  push_cast
  exact not_lt.mpr hav_le_001a

lemma no_jump_10 :
    ¬ ((5000 : ℝ) < haversine_m ((0:ℚ) : ℝ) ((q1000 : ℚ) : ℝ) ((0:ℚ) : ℝ) ((0:ℚ) : ℝ)) := by
  rw [q1000_cast]
  push_cast
  exact not_lt.mpr hav_le_001b

def shX6 : Sheet :=
  ⟨true, false, false,
    [⟨none, Cell.num 0, Cell.num 0, some (pys "   "), none, none⟩,
     ⟨none, Cell.num 0, Cell.num q1000, some (pys "red"), none, none⟩]⟩

/-- Claim C6 counterexample: the first non-NaN color cell is blank
whitespace, the first non-blank value is "red", yet the emitted path gets
no color at all — the code keys on the first non-NaN value, not the first
non-blank one. -/
theorem C6_counterexample :
    (add_lines_with_autosplit shX6 5000).map (fun p => p.color) = [none] ∧
      ((shX6.rows.filterMap (fun r => r.lineStringColor)).filter
          (fun s => !(pyStrip s).isEmpty)).head? = some (pys "red") ∧
      normalize_color_value (some (pys "red")) = some (pys "ff0000ff") ∧
      (add_lines_with_autosplit shX6 5000).map (fun p => p.color)
        ≠ [some (pys "ff0000ff")] := by
  have hout : add_lines_with_autosplit shX6 5000 =
      [⟨[((0:ℚ), (0:ℚ)), (q1000, (0:ℚ))], none, none⟩] := by
    rw [add_lines_eq shX6 5000 (by decide)]
    have hrows : shX6.rows =
        [⟨none, Cell.num 0, Cell.num 0, some (pys "   "), none, none⟩,
         ⟨none, Cell.num 0, Cell.num q1000, some (pys "red"), none, none⟩] := rfl
    rw [hrows, List.foldl_cons,
      lineStep_num_first (chosen_color shX6) 5000 ⟨[], [], none⟩ _ 0 0 rfl rfl rfl,
      List.foldl_cons,
      lineStep_num_append (chosen_color shX6) 5000 _ _ 0 q1000 ((0:ℚ), (0:ℚ))
        rfl rfl rfl (by decide) no_jump_01,
      List.foldl_nil]
    decide
  refine ⟨by rw [hout]; decide, by decide, by decide, by rw [hout]; decide⟩

def shW6 : Sheet :=
  ⟨true, false, false,
    [⟨none, Cell.num 0, Cell.num 0, some (pys "Blue"), none, none⟩,
     ⟨none, Cell.num 0, Cell.num q1000, some (pys "red"), none, none⟩]⟩

/-- Witness for the amended C6: the emitted path carries exactly the style
of the chosen (first non-NaN) color "Blue". -/
theorem C6_witness :
    (⟨[((0:ℚ), (0:ℚ)), (q1000, (0:ℚ))], some (pys "ffff0000"), some 3⟩ : PathFeature)
        ∈ add_lines_with_autosplit shW6 5000 ∧
      (⟨[((0:ℚ), (0:ℚ)), (q1000, (0:ℚ))], some (pys "ffff0000"), some 3⟩ :
          PathFeature).color = (lineStyleOf (chosen_color shW6)).1 ∧
      (⟨[((0:ℚ), (0:ℚ)), (q1000, (0:ℚ))], some (pys "ffff0000"), some 3⟩ :
          PathFeature).width = (lineStyleOf (chosen_color shW6)).2 := by
  have hout : add_lines_with_autosplit shW6 5000 =
      [⟨[((0:ℚ), (0:ℚ)), (q1000, (0:ℚ))], some (pys "ffff0000"), some 3⟩] := by
    rw [add_lines_eq shW6 5000 (by decide)]
    have hrows : shW6.rows =
        [⟨none, Cell.num 0, Cell.num 0, some (pys "Blue"), none, none⟩,
         ⟨none, Cell.num 0, Cell.num q1000, some (pys "red"), none, none⟩] := rfl
    rw [hrows, List.foldl_cons,
      lineStep_num_first (chosen_color shW6) 5000 ⟨[], [], none⟩ _ 0 0 rfl rfl rfl,
      List.foldl_cons,
      lineStep_num_append (chosen_color shW6) 5000 _ _ 0 q1000 ((0:ℚ), (0:ℚ))
        rfl rfl rfl (by decide) no_jump_01,
      List.foldl_nil]
    decide
  have hmem : (⟨[((0:ℚ), (0:ℚ)), (q1000, (0:ℚ))], some (pys "ffff0000"), some 3⟩ :
      PathFeature) ∈ add_lines_with_autosplit shW6 5000 := by
    rw [hout]
    exact List.mem_singleton.mpr rfl
  obtain ⟨h1, h2⟩ := C6_amended_single_sheet_color shW6 5000 _ hmem
  exact ⟨hmem, h1, h2⟩

/-! ## Claim C1 -/

/-- The soft-break relation: two consecutive points within the split
threshold. -/
def smallJump (thr : ℝ) (a b : Point) : Prop :=
  haversine_m (a.2 : ℝ) (a.1 : ℝ) (b.2 : ℝ) (b.1 : ℝ) ≤ thr

lemma dedupFrom_cons (p q : Point) (t : List Point) :
    dedupFrom p (q :: t) = if q = p then dedupFrom p t else q :: dedupFrom q t := rfl

lemma dedupC_cons (p : Point) (t : List Point) : dedupC (p :: t) = p :: dedupFrom p t := rfl

lemma foldl_run (chosen : Option PyStr) (thr : ℝ) :
    ∀ (rows : List SheetRow) (em : List PathFeature) (seg : List Point) (p : Point),
      (∀ r ∈ rows, ∃ la lo, r.lat = Cell.num la ∧ r.lon = Cell.num lo) →
      List.Chain' (smallJump thr) (p :: dedupFrom p (rows.filterMap rowPt)) →
      rows.foldl (lineStep chosen thr) ⟨em, seg, some p⟩
        = ⟨em, seg ++ dedupFrom p (rows.filterMap rowPt),
            some ((dedupFrom p (rows.filterMap rowPt)).getLastD p)⟩ := by
  intro rows
  induction rows with
  | nil =>
    intro em seg p hv hch
    simp [dedupFrom]
  | cons r t ih =>
    intro em seg p hv hch
    obtain ⟨la, lo, hlat, hlon⟩ := hv r (List.mem_cons_self r t)
    have hfm : (r :: t).filterMap rowPt = (lo, la) :: t.filterMap rowPt := by
      rw [List.filterMap_cons]
      simp [rowPt, hlat, hlon]
    rw [hfm] at hch ⊢
    rw [List.foldl_cons]
    by_cases hqp : ((lo, la) : Point) = p
    · rw [lineStep_num_skip chosen thr _ r la lo p hlat hlon rfl hqp]
      have hded : dedupFrom p ((lo, la) :: t.filterMap rowPt)
          = dedupFrom p (t.filterMap rowPt) := by
        rw [dedupFrom_cons, if_pos hqp]
      rw [hded] at hch ⊢
      exact ih em seg p (fun r2 hr2 => hv r2 (List.mem_cons_of_mem _ hr2)) hch
    · have hded : dedupFrom p ((lo, la) :: t.filterMap rowPt)
          = (lo, la) :: dedupFrom (lo, la) (t.filterMap rowPt) := by
        rw [dedupFrom_cons, if_neg hqp]
      rw [hded] at hch ⊢
      have hjump : smallJump thr p (lo, la) := (List.chain'_cons.mp hch).1
      rw [lineStep_num_append chosen thr _ r la lo p hlat hlon rfl hqp (not_lt.mpr hjump)]
      rw [ih em (seg ++ [(lo, la)]) (lo, la)
        (fun r2 hr2 => hv r2 (List.mem_cons_of_mem _ hr2))
        (List.chain'_cons.mp hch).2]
      rw [List.append_assoc, List.singleton_append, List.getLastD_cons]

/-- Claim C1 amended: no closing-loop suppression occurs.  For a run of
valid rows whose consecutive distinct points all stay within the split
threshold, the emitted path is exactly the consecutive-deduplicated input
sequence — including a final point equal to the first, so the output has as
many points as the distinct input points, not one fewer. -/
theorem C1_amended_closing_point_retained (sh : Sheet) (thr : ℝ)
    (hvalid : ∀ r ∈ sh.rows, ∃ la lo, r.lat = Cell.num la ∧ r.lon = Cell.num lo)
    (hch : List.Chain' (smallJump thr) (dedupC (sh.rows.filterMap rowPt)))
    (hlen : 2 ≤ (dedupC (sh.rows.filterMap rowPt)).length) :
    (add_lines_with_autosplit sh thr).map (fun p => p.coords)
      = [dedupC (sh.rows.filterMap rowPt)] := by
  rcases hrows : sh.rows with _ | ⟨r0, rest⟩
  · rw [hrows] at hlen
    simp [dedupC] at hlen
  · rw [hrows] at hch hlen
    obtain ⟨la0, lo0, hlat0, hlon0⟩ :=
      hvalid r0 (by rw [hrows]; exact List.mem_cons_self r0 rest)
    have hfm : (r0 :: rest).filterMap rowPt = (lo0, la0) :: rest.filterMap rowPt := by
      rw [List.filterMap_cons]
      simp [rowPt, hlat0, hlon0]
    have hded : dedupC ((r0 :: rest).filterMap rowPt)
        = (lo0, la0) :: dedupFrom (lo0, la0) (rest.filterMap rowPt) := by
      rw [hfm, dedupC_cons]
    rw [hded] at hch hlen ⊢
    rw [add_lines_eq sh thr (by rw [hrows]; exact List.cons_ne_nil r0 rest)]
    rw [hrows, List.foldl_cons,
      lineStep_num_first (chosen_color sh) thr ⟨[], [], none⟩ r0 la0 lo0 hlat0 hlon0 rfl]
    rw [foldl_run (chosen_color sh) thr rest _ _ (lo0, la0)
      (fun r2 hr2 => hvalid r2 (by rw [hrows]; exact List.mem_cons_of_mem _ hr2)) hch]
    unfold flushInto
    rw [if_neg (by
      simp only [List.length_append, List.length_cons, List.length_nil] at hlen ⊢
      omega)]
    simp

def shC1 : Sheet :=
  ⟨false, false, false,
    [⟨none, Cell.num 0, Cell.num 0, none, none, none⟩,
     ⟨none, Cell.num 0, Cell.num q1000, none, none, none⟩,
     ⟨none, Cell.num 0, Cell.num 0, none, none, none⟩]⟩

/-- Claim C1 counterexample: a three-point sequence returning to its start
(all jumps far below the threshold) is emitted whole: the path keeps the
final closing point, so its length equals the number of distinct input
points, not one fewer. -/
theorem C1_counterexample :
    (add_lines_with_autosplit shC1 5000).map (fun p => p.coords)
        = [[((0:ℚ), (0:ℚ)), (q1000, (0:ℚ)), ((0:ℚ), (0:ℚ))]] ∧
      ([((0:ℚ), (0:ℚ)), (q1000, (0:ℚ)), ((0:ℚ), (0:ℚ))] : List Point).getLast?
        = ([((0:ℚ), (0:ℚ)), (q1000, (0:ℚ)), ((0:ℚ), (0:ℚ))] : List Point).head? ∧
      ([((0:ℚ), (0:ℚ)), (q1000, (0:ℚ)), ((0:ℚ), (0:ℚ))] : List Point).length
        ≠ (dedupC [((0:ℚ), (0:ℚ)), (q1000, (0:ℚ)), ((0:ℚ), (0:ℚ))]).length - 1 := by
  refine ⟨?_, by decide, by decide⟩
  rw [add_lines_eq shC1 5000 (by decide)]
  have hrows : shC1.rows =
      [⟨none, Cell.num 0, Cell.num 0, none, none, none⟩,
       ⟨none, Cell.num 0, Cell.num q1000, none, none, none⟩,
       ⟨none, Cell.num 0, Cell.num 0, none, none, none⟩] := rfl
  rw [hrows, List.foldl_cons,
    lineStep_num_first (chosen_color shC1) 5000 ⟨[], [], none⟩ _ 0 0 rfl rfl rfl,
    List.foldl_cons,
    lineStep_num_append (chosen_color shC1) 5000 _ _ 0 q1000 ((0:ℚ), (0:ℚ))
      rfl rfl rfl (by decide) no_jump_01,
    List.foldl_cons,
    lineStep_num_append (chosen_color shC1) 5000 _ _ 0 0 (q1000, (0:ℚ))
      rfl rfl rfl (by decide) no_jump_10,
    List.foldl_nil]
  decide

/-- Witness for the amended C1 at the same closing-loop input: the emitted
path is the full deduplicated sequence, closing point included. -/
theorem C1_witness :
    (∀ r ∈ shC1.rows, ∃ la lo, r.lat = Cell.num la ∧ r.lon = Cell.num lo) ∧
      2 ≤ (dedupC (shC1.rows.filterMap rowPt)).length ∧
      (add_lines_with_autosplit shC1 5000).map (fun p => p.coords)
        = [dedupC (shC1.rows.filterMap rowPt)] := by
  have hv : ∀ r ∈ shC1.rows, ∃ la lo, r.lat = Cell.num la ∧ r.lon = Cell.num lo := by
    intro r hr
    fin_cases hr <;> exact ⟨_, _, rfl, rfl⟩
  have hded : dedupC (shC1.rows.filterMap rowPt)
      = [((0:ℚ), (0:ℚ)), (q1000, (0:ℚ)), ((0:ℚ), (0:ℚ))] := by decide
  have hch : List.Chain' (smallJump 5000) (dedupC (shC1.rows.filterMap rowPt)) := by
    rw [hded]
    refine List.chain'_cons.mpr ⟨?_, List.chain'_cons.mpr ⟨?_, List.chain'_singleton _⟩⟩
    · show haversine_m ((0:ℚ) : ℝ) ((0:ℚ) : ℝ) ((0:ℚ) : ℝ) ((q1000 : ℚ) : ℝ) ≤ 5000
      rw [q1000_cast]
      push_cast
      exact hav_le_001a
    · show haversine_m ((0:ℚ) : ℝ) ((q1000 : ℚ) : ℝ) ((0:ℚ) : ℝ) ((0:ℚ) : ℝ) ≤ 5000
      rw [q1000_cast]
      push_cast
      exact hav_le_001b
  exact ⟨hv, by rw [hded]; decide,
    C1_amended_closing_point_retained shC1 5000 hv hch (by rw [hded]; decide)⟩
